import Mathlib

/-!
# Verification of the IMF (Integer Media File) parser

Shallow embedding of `src/lib.rs` (crate `imf`). Text is modelled as
`List Char`; Rust `Result`/panics are modelled by `RResult`; the
`BTreeMap<i32, (u8,u8,u8)>` is modelled as an association list kept
sorted by key (its iteration order). The regular expressions used by
the source (`(?i)\[v(\d+)\]`, `\d+,\d+(?=\s*;)`,
`(\d+\([0-9a-fA-F]{6}\))+`, `(?<=\[)(\d+,?)+(?=\])`) are embedded as
leftmost-match scanners with the same greedy semantics.
-/

namespace IMFSpec

/-- Outcome of a Rust computation: `Ok`, `Err`, or a panic
(`unwrap`/`expect` on `None`). -/
inductive RResult (α : Type) where
  | ok (a : α)
  | err (e : String)
  | panic
deriving DecidableEq, Repr

/-- Numeric value of a decimal digit character. -/
def digitVal (c : Char) : Nat := c.toNat - 48

/-- Value of a list of decimal digit characters, most significant first. -/
def natOfDigits (l : List Char) : Nat := l.foldl (fun a c => 10 * a + digitVal c) 0

/-- Rust's unsigned `str::parse`: optional leading `+`, then one or more
digits, failing on overflow of the target type (`bound` is one past the
largest representable value). -/
def parseNatCore (l : List Char) (bound : Nat) : Option Nat :=
  if l ≠ [] ∧ l.all Char.isDigit then
    if natOfDigits l < bound then some (natOfDigits l) else none
  else none

def parseUnsigned (l : List Char) (bound : Nat) : Option Nat :=
  match l with
  | '+' :: rest => parseNatCore rest bound
  | _ => parseNatCore l bound

/-- One past the largest `usize` value (the crate targets 64-bit). -/
def usizeBound : Nat := 2 ^ 64

/-- Rust's `str::parse::<i32>`: optional sign, digits, overflow-checked. -/
def parseI32 (l : List Char) : Option Int :=
  match l with
  | '-' :: rest =>
    if rest ≠ [] ∧ rest.all Char.isDigit then
      if natOfDigits rest ≤ 2 ^ 31 then some (-(natOfDigits rest : Int)) else none
    else none
  | '+' :: rest =>
    if rest ≠ [] ∧ rest.all Char.isDigit then
      if natOfDigits rest < 2 ^ 31 then some ((natOfDigits rest : Int)) else none
    else none
  | _ =>
    if l ≠ [] ∧ l.all Char.isDigit then
      if natOfDigits l < 2 ^ 31 then some ((natOfDigits l : Int)) else none
    else none

/-- Rust `str::split(sep)`: `"a,,b" ↦ ["a","","b"]`, `"" ↦ [""]`. -/
def splitOnChar (sep : Char) : List Char → List (List Char)
  | [] => [[]]
  | c :: rest =>
    match splitOnChar sep rest with
    | [] => if c = sep then [[], []] else [[c]]
    | t :: ts => if c = sep then [] :: t :: ts else (c :: t) :: ts

/-- Rust `str::trim` (whitespace relevant to this format: the inputs are
ASCII). -/
def trimCh (l : List Char) : List Char :=
  ((l.dropWhile Char.isWhitespace).reverse.dropWhile Char.isWhitespace).reverse

/-- `str2vec` (`lib.rs:347`): split on `,`, trim each piece, skip empty
pieces, parse each remaining piece as `i32`, failing on the first bad
token. -/
def str2vecLoop : List (List Char) → Except String (List Int)
  | [] => .ok []
  | item :: rest =>
    let t := trimCh item
    if t = [] then str2vecLoop rest
    else
      match parseI32 t with
      | some n => (str2vecLoop rest).map (fun l => n :: l)
      | none => .error ("'" ++ String.mk t ++ "' is not a number!")

def str2vec (s : List Char) : Except String (List Int) :=
  str2vecLoop (splitOnChar ',' s)

/-- The in-memory model (`struct IMF`, `lib.rs:12`). `colors` models the
`BTreeMap<i32,(u8,u8,u8)>` as its sorted entry list. -/
structure IMF where
  version : Nat
  colors : List (Int × Nat × Nat × Nat)
  width : Nat
  height : Nat
  map : List Int
deriving DecidableEq, Repr

/-- The ten default legend entries inserted by `IMF::default`
(`lib.rs:22`), listed in `BTreeMap` (key) order. -/
def defaultColors : List (Int × Nat × Nat × Nat) :=
  [(0, 0, 0, 0), (1, 127, 127, 127), (2, 255, 255, 255), (3, 255, 0, 0),
   (4, 255, 127, 0), (5, 255, 255, 0), (6, 0, 255, 0), (7, 0, 0, 255),
   (8, 127, 0, 255), (9, 255, 0, 255)]

/-- `IMF::default` (`lib.rs:22`). -/
def IMF.default : IMF :=
  { version := 1, colors := defaultColors, width := 8, height := 8,
    map := List.replicate 64 1 }

/-- `BTreeMap::insert` on the sorted entry list. -/
def btreeInsert (k : Int) (v : Nat × Nat × Nat) :
    List (Int × Nat × Nat × Nat) → List (Int × Nat × Nat × Nat)
  | [] => [(k, v)]
  | (k2, v2) :: rest =>
    if k < k2 then (k, v) :: (k2, v2) :: rest
    else if k = k2 then (k, v) :: rest
    else (k2, v2) :: btreeInsert k v rest

/-! ## Regex scanners

Each scanner implements leftmost-first matching of the corresponding
`fancy_regex` pattern: match positions are tried left to right, and at a
position quantifiers are greedy.  For these particular patterns greedy
backtracking can never turn a failed attempt at a position into a
success (each repeated element ends at a character that the following
required character cannot also be), so a per-position deterministic
attempt is exact. -/

/-- Attempt of `(?i)v(\d+)]` immediately after a `[`: used by
`proc_version`'s pattern `(?i)(?:\[v)(\d+)(?:])` (`lib.rs:124`).
Returns the captured digits. -/
def versionAt (l : List Char) : Option (List Char) :=
  match l with
  | [] => none
  | c :: rest =>
    if c = 'v' ∨ c = 'V' then
      let ds := rest.takeWhile Char.isDigit
      if ds ≠ [] ∧ (rest.dropWhile Char.isDigit).head? = some ']' then some ds
      else none
    else none

/-- Leftmost match of `(?i)(?:\[v)(\d+)(?:])`, returning the digits. -/
def scanVersion : List Char → Option (List Char)
  | [] => none
  | c :: rest =>
    if c = '[' then
      match versionAt rest with
      | some ds => some ds
      | none => scanVersion rest
    else scanVersion rest

/-- `IMF::proc_version` (`lib.rs:123`): the `Err` branch of the Rust
function is a regex-engine failure that cannot occur for this fixed
pattern, so the embedding returns the `Ok` payload: the captured digits
parsed as `u8` (`parse().ok()`, so overflow yields `none`). -/
def procVersion (file : List Char) : Option Nat :=
  match scanVersion file with
  | none => none
  | some ds => parseNatCore ds 256

/-- Attempt of `\d+,\d+(?=\s*;)` at the current position, returning the
two digit runs. -/
def dimAt (l : List Char) : Option (List Char × List Char) :=
  let d1 := l.takeWhile Char.isDigit
  let r1 := l.dropWhile Char.isDigit
  if d1 = [] then none
  else
    match r1 with
    | ',' :: r2 =>
      let d2 := r2.takeWhile Char.isDigit
      let r3 := r2.dropWhile Char.isDigit
      if d2 = [] then none
      else if (r3.dropWhile Char.isWhitespace).head? = some ';' then some (d1, d2)
      else none
    | _ => none

/-- Leftmost match of `\d+,\d+(?=\s*;)` (`lib.rs:136`). -/
def scanDim : List Char → Option (List Char × List Char)
  | [] => none
  | c :: rest =>
    match dimAt (c :: rest) with
    | some p => some p
    | none => scanDim rest

/-- `IMF::proc_dim` (`lib.rs:134`).  The matched text is
`digits ',' digits`, so the source's split on `,` always yields exactly
two pieces and the `Invalid amount of dimensions` branch is
unreachable; the two pieces are the two digit runs. -/
def procDim (file : List Char) : Except String (Nat × Nat) :=
  match scanDim file with
  | none => .error "Dimensions not found"
  | some (d1, d2) =>
    match parseUnsigned d1 usizeBound with
    | none => .error "Width is not a number"
    | some x =>
      match parseUnsigned d2 usizeBound with
      | none => .error "Height is not a number"
      | some y => .ok (x, y)

/-- One `\d+\([0-9a-fA-F]{6}\)` group at the current position: returns
the matched text and the remainder. -/
def colGroupAt (l : List Char) : Option (List Char × List Char) :=
  let ds := l.takeWhile Char.isDigit
  let r1 := l.dropWhile Char.isDigit
  if ds = [] then none
  else
    match r1 with
    | '(' :: r2 =>
      let hex := r2.take 6
      let r3 := r2.drop 6
      if hex.length = 6 ∧ hex.all (fun c => c.isDigit ∨ ('a' ≤ c ∧ c ≤ 'f') ∨ ('A' ≤ c ∧ c ≤ 'F')) then
        match r3 with
        | ')' :: r4 => some (ds ++ '(' :: hex ++ [')'], r4)
        | _ => none
      else none
    | _ => none

/-- Greedy `(\d+\([0-9a-fA-F]{6}\))+` at the current position (fuel is
an upper bound on the group count; each group consumes at least nine
characters). -/
def colRun (fuel : Nat) (l : List Char) : Option (List Char) :=
  match fuel with
  | 0 => none
  | fuel + 1 =>
    match colGroupAt l with
    | none => none
    | some (m, rest) =>
      match colRun fuel rest with
      | some m2 => some (m ++ m2)
      | none => some m

/-- Leftmost match of `(\d+\([0-9a-fA-F]{6}\))+` (`lib.rs:150`). -/
def scanCols : List Char → Option (List Char)
  | [] => none
  | c :: rest =>
    match colRun (c :: rest).length (c :: rest) with
    | some m => some m
    | none => scanCols rest

/-- Value of a hexadecimal digit (the scanners only feed it
`[0-9a-fA-F]`). -/
def hexVal (c : Char) : Nat :=
  if c.isDigit then c.toNat - 48
  else if 'a' ≤ c ∧ c ≤ 'f' then c.toNat - 87
  else c.toNat - 55

/-- One colour channel as stored by `proc_cols` (`lib.rs:177`):
`colors_transform`'s `Rgb` keeps channels on the 0–255 scale, the source
multiplies the parsed channel by `255f32`, and the `as u8` cast
saturates.  The product is exact in `f32` (it is below `2^24`), so the
stored byte is `min (v * 255) 255`. -/
def satur (v : Nat) : Nat := min (v * 255) 255

/-- The per-entry loop of `IMF::proc_cols` (`lib.rs:162`): each item is
`key '(' hex6` (the matched run split on `)`), split once on `(`; the
key parses as `i32`; `Rgb::from_hex_str` on the six hex digits gives the
three channels, which are rescaled by `satur` and inserted into the
`BTreeMap`.  The `Incorrect formatting` and `not a valid hex code`
branches are kept for items that lack a `(` or a six-character value,
although the scanner never produces such items. -/
def splitOnce (sep : Char) : List Char → Option (List Char × List Char)
  | [] => none
  | c :: rest =>
    if c = sep then some ([], rest)
    else (splitOnce sep rest).map (fun p => (c :: p.1, p.2))

def colsLoop : List (List Char) → List (Int × Nat × Nat × Nat) →
    Except String (List (Int × Nat × Nat × Nat))
  | [], acc => .ok acc
  | item :: rest, acc =>
    match splitOnce '(' item with
    | none => .error ("Incorrect formatting on line '" ++ String.mk item ++ ")'")
    | some (keyStr, valStr) =>
      match parseI32 keyStr with
      | none => .error ("'" ++ String.mk keyStr ++ "' not a number")
      | some key =>
        match valStr with
        | [a, b, c, d, e, f] =>
          colsLoop rest
            (btreeInsert key
              (satur (16 * hexVal a + hexVal b),
               satur (16 * hexVal c + hexVal d),
               satur (16 * hexVal e + hexVal f)) acc)
        | _ => .error ("'#" ++ String.mk valStr ++ "' is not a valid hex code!")

/-- `IMF::proc_cols` (`lib.rs:149`). -/
def procCols (file : List Char) :
    Except String (Option (List (Int × Nat × Nat × Nat))) :=
  match scanCols file with
  | none => .ok none
  | some m =>
    match colsLoop ((splitOnChar ')' m).filter (fun s => s ≠ [])) [] with
    | .error e => .error e
    | .ok cm => .ok (some cm)

/-- Greedy `(\d+,?)+` starting at the current position (the head must be
a digit): returns the consumed text and the remainder.  A trailing comma
is consumed even when no further digits follow. -/
def mapRunFrom (fuel : Nat) (l : List Char) : Option (List Char × List Char) :=
  match fuel with
  | 0 => none
  | fuel + 1 =>
    let ds := l.takeWhile Char.isDigit
    let r1 := l.dropWhile Char.isDigit
    if ds = [] then none
    else
      match r1 with
      | ',' :: r2 =>
        match mapRunFrom fuel r2 with
        | some (m, rest) => some (ds ++ ',' :: m, rest)
        | none => some (ds ++ [','], r2)
      | _ => some (ds, r1)

/-- Leftmost match of `(?<=\[)(\d+,?)+(?=\])` (`lib.rs:186`): positions
are tried left to right, the look-behind requires the previous character
to be `[`, and the look-ahead requires the character after the greedy
run to be `]` (for this pattern backtracking inside the run can never
make the look-ahead succeed once the greedy attempt has failed). -/
def scanMapGo : Option Char → List Char → Option (List Char)
  | _, [] => none
  | prev, c :: rest =>
    if prev = some '[' then
      match mapRunFrom (c :: rest).length (c :: rest) with
      | some (m, r) =>
        if r.head? = some ']' then some m else scanMapGo (some c) rest
      | none => scanMapGo (some c) rest
    else scanMapGo (some c) rest

def scanMap (l : List Char) : Option (List Char) := scanMapGo none l

/-- `IMF::proc_map` (`lib.rs:185`).  The `expect` on the regex engine
cannot fire for this fixed pattern.  Note the source's direction test:
`if map_arr.len() < w * h { "many" } else { "few" }`. -/
def procMap (file : List Char) (w h : Nat) : Except String (List Int) :=
  match scanMap file with
  | none => .error "Integer list not found"
  | some m =>
    match str2vec m with
    | .error e => .error e
    | .ok arr =>
      if arr.length ≠ w * h then
        .error ("Too " ++ (if arr.length < w * h then "many" else "few") ++
          " numbers in list")
      else .ok arr

/-! ## Loaders and the dispatcher -/

/-- `IMF::load_v1` (`lib.rs:72`): split on `\n`, keep lines whose trim
is non-empty, parse the first as width and the second as height
(`lines.next().unwrap()` panics when the iterator is exhausted),
concatenate the remaining lines, run `str2vec`, and check the count
against `width * height` (`if len > correct { "many" } else { "few" }`). -/
def loadV1 (imf : IMF) (file : List Char) : RResult IMF :=
  match (splitOnChar '\n' file).filter (fun l => trimCh l ≠ []) with
  | [] => .panic
  | wLine :: rest1 =>
    match parseUnsigned wLine usizeBound with
    | none => .err "::Dimensions: Width not a number"
    | some w =>
      match rest1 with
      | [] => .panic
      | hLine :: rest2 =>
        match parseUnsigned hLine usizeBound with
        | none => .err "::Dimensions: Height not a number"
        | some h =>
          match str2vec (rest2.foldl (fun acc l => acc ++ l) []) with
          | .error e => .err ("::Map: " ++ e)
          | .ok arr =>
            if arr.length ≠ w * h then
              .err ("::Map: Too " ++ (if arr.length > w * h then "many" else "few") ++
                " numbers in list")
            else .ok { imf with width := w, height := h, map := arr }

/-- Rust `str::lines()`: split on `\n`; every piece except the last was
`\n`-terminated and has one trailing `\r` stripped; the last piece is
dropped when empty (text ended in `\n`) and otherwise kept as is. -/
def rustLines (file : List Char) : List (List Char) :=
  let parts := splitOnChar '\n' file
  let body := parts.dropLast.map (fun l => if l.getLast? = some '\r' then l.dropLast else l)
  match parts.getLast? with
  | some [] => body
  | some last => body ++ [last]
  | none => body

/-- The flattening fold at the top of `load_v2` (`lib.rs:103`). -/
def flattenLines (file : List Char) : List Char :=
  (rustLines file).foldl (fun acc l => acc ++ l) []

/-- `IMF::load_v2` (`lib.rs:100`): flatten, then colours, dimensions and
map in that order, each failure tagged with its stage; a parsed legend
replaces the colour table wholesale. -/
def loadV2 (imf : IMF) (file : List Char) : Except String IMF :=
  let cf := flattenLines file
  match procCols cf with
  | .error e => .error ("::Colors: " ++ e)
  | .ok colMap =>
    match procDim cf with
    | .error e => .error ("::Dimensions: " ++ e)
    | .ok (w, h) =>
      match procMap cf w h with
      | .error e => .error ("::Map: " ++ e)
      | .ok m =>
        .ok { imf with
                width := w
                height := h
                map := m
                colors := colMap.getD imf.colors }

/-- The v1 arm of `IMF::new`'s dispatch (`lib.rs:64`): the default
model with `version` already set, errors prefixed `IMF::LoadV1`. -/
def dispatchV1 (file : List Char) : RResult IMF :=
  match loadV1 { IMF.default with version := 1 } file with
  | .ok i => .ok i
  | .err e => .err ("IMF::LoadV1" ++ e)
  | .panic => .panic

/-- The v2 arm of `IMF::new`'s dispatch (`lib.rs:65`). -/
def dispatchV2 (file : List Char) : RResult IMF :=
  match loadV2 { IMF.default with version := 2 } file with
  | .ok i => .ok i
  | .error e => .err ("IMF::LoadV2" ++ e)

/-- `IMF::new` (`lib.rs:56`) minus the file read: version detection
(`proc_version(..)?.unwrap_or_else(|| 1)`) followed by the dispatch;
any version other than 1 or 2 is `Incompatible IMF version!`. -/
def load (file : List Char) : RResult IMF :=
  match (procVersion file).getD 1 with
  | 1 => dispatchV1 file
  | 2 => dispatchV2 file
  | _ => .err "Incompatible IMF version!"

/-! ## Accessors -/

/-- `IMF::xy2i` (`lib.rs:261`), including the source's `x > self.width`
/ `y > self.height` bound (not `≥`). -/
def IMF.xy2i (s : IMF) (x y : Nat) : Option Nat :=
  if x > s.width ∨ y > s.height then none else some (y * s.width + x)

/-- `IMF::i2xy` (`lib.rs:284`): `Some((i % width, i / width))` for
`i < map.len()`.  (Rust would panic on division by zero; every theorem
below that uses `i2xy` assumes `width ≥ 1`.) -/
def IMF.i2xy (s : IMF) (i : Nat) : Option (Nat × Nat) :=
  if i < s.map.length then some (i % s.width, i / s.width) else none

/-- `IMF::get_xy` (`lib.rs:222`).  As printed, `self.map.get(index).ok()`
with `index : Option<usize>` does not type-check in Rust; the evident
intent, `index.and_then(|i| self.map.get(i)).copied()`, is embedded. -/
def IMF.getXy (s : IMF) (x y : Nat) : Option Int :=
  match s.xy2i x y with
  | some i => s.map.get? i
  | none => none

/-- `IMF::set_xy` (`lib.rs:240`): `xy2i` failure is the recoverable
`Coordinates out of range!` error, but an in-`xy2i`-range index past the
end of `map` hits `get_mut(..).unwrap()` and panics. -/
def IMF.setXy (s : IMF) (x y : Nat) (v : Int) : RResult IMF :=
  match s.xy2i x y with
  | none => .err "Coordinates out of range!"
  | some i =>
    if i < s.map.length then .ok { s with map := s.map.set i v } else .panic

/-! ## Serializer -/

/-- Decimal digits of a natural number (fuel-based; `natRepr n` always
has enough fuel). -/
def natReprAux (fuel n : Nat) : List Char :=
  match fuel with
  | 0 => []
  | fuel + 1 =>
    if n < 10 then [Char.ofNat (48 + n)]
    else natReprAux fuel (n / 10) ++ [Char.ofNat (48 + n % 10)]

/-- Rust `{}` for an unsigned integer. -/
def natRepr (n : Nat) : List Char := natReprAux (n + 1) n

/-- Rust `{}` for `i32`. -/
def intRepr (i : Int) : List Char :=
  if i < 0 then '-' :: natRepr (-i).toNat else natRepr i.toNat

/-- Two lowercase hex digits of a byte: the channel text produced by
`Rgb::from_tuple(..).to_css_hex_string()` for a 0–255 integral channel
(`lib.rs:316`). -/
def hexByte (n : Nat) : List Char :=
  [Char.ofNat (if n / 16 % 16 < 10 then 48 + n / 16 % 16 else 87 + n / 16 % 16),
   Char.ofNat (if n % 16 < 10 then 48 + n % 16 else 87 + n % 16)]

/-- One cell of the row loop in `IMF::write` (`lib.rs:303`): the text
`"{},"` for the cell, or `none` where the source's `unwrap` would
panic. -/
def cellText (s : IMF) (x y : Nat) : Option (List Char) :=
  match s.xy2i x y with
  | some i => (s.map.get? i).map (fun v => intRepr v ++ [','])
  | none => none

/-- The row-major cell block written by both text dialects: one line per
row, each cell as `"{},"`. -/
def rowsText (s : IMF) : Option (List Char) :=
  ((List.range s.height).mapM (fun y =>
      ((List.range s.width).mapM (fun x => cellText s x y)).map
        (fun cs => cs.foldl (fun acc l => acc ++ l) [] ++ ['\n']))).map
    (fun rs => rs.foldl (fun acc l => acc ++ l) [])

/-- One legend line of the v2 writer (`lib.rs:314`):
`"{index}({rrggbb})\n"`. -/
def legendLine (e : Int × Nat × Nat × Nat) : List Char :=
  intRepr e.1 ++ '(' :: (hexByte e.2.1 ++ hexByte e.2.2.1 ++ hexByte e.2.2.2) ++ [')', '\n']

/-- `IMF::write` (`lib.rs:295`) with the file replaced by the text it
would contain: version 1 writes `width`, `height`, rows; version 2
writes the `[v2]` marker, `"w,h;"`, the legend, and the bracketed rows;
any other version writes nothing and returns `Ok` (`_ => {}`).  `panic`
stands for the source's `unwrap`s firing mid-write. -/
def write (s : IMF) : RResult (List Char) :=
  match s.version with
  | 1 =>
    match rowsText s with
    | none => .panic
    | some rows => .ok (natRepr s.width ++ '\n' :: natRepr s.height ++ '\n' :: rows)
  | 2 =>
    match rowsText s with
    | none => .panic
    | some rows =>
      .ok ("[v2]\n".data ++ natRepr s.width ++ ',' :: natRepr s.height ++ ";\n".data ++
        (s.colors.map legendLine).foldl (fun acc l => acc ++ l) [] ++
        "[\n".data ++ rows ++ "]\n".data)
  | _ => .ok []

/-! ## Concrete models used by the theorems -/

/-- A 2×2 v1 grid with cells `[1,2,3,4]` (the grid of C8 and C2). -/
def grid22 : IMF :=
  { version := 1, colors := defaultColors, width := 2, height := 2, map := [1, 2, 3, 4] }

/-- A well-formed v2 model whose single legend entry has a channel
strictly between 0 and 255. -/
def grayModel : IMF :=
  { version := 2, colors := [(0, 127, 0, 0)], width := 1, height := 1, map := [0] }

/-- What `load` makes of `write grayModel`: the 127 channel has become
255. -/
def grayReparsed : IMF :=
  { version := 2, colors := [(0, 255, 0, 0)], width := 1, height := 1, map := [0] }

/-- A 2×3 grid used to instantiate the coordinate-mapping theorem. -/
def grid23 : IMF :=
  { version := 1, colors := [], width := 2, height := 3, map := [0, 1, 2, 3, 4, 5] }

/-- Each of an entry's three channels is 0 or 255. -/
def chanSat (e : Int × Nat × Nat × Nat) : Prop :=
  (e.2.1 = 0 ∨ e.2.1 = 255) ∧ (e.2.2.1 = 0 ∨ e.2.2.1 = 255) ∧
  (e.2.2.2 = 0 ∨ e.2.2.2 = 255)

/-! ## Binary dialect (v3)

Modelled from the spec: no binary codec exists in `src/`; §4.2, §4.5
and §6 of the specification define it (tag byte 0 = scalar `i16`,
1 = four-directional `i16` quadruple in north/east/south/west order;
stream = version byte 3, `u32` width, `u32` height, `u32` layer count,
then the cells of each layer in row-major order; one fixed byte order —
little-endian here). -/

/-- Modelled from the spec: a tagged cell (§3 `cell`) — a plain scalar
or a four-directional record of signed 16-bit values. -/
inductive Cell where
  | scalar (v : Int)
  | dir (n e s w : Int)
deriving DecidableEq, Repr

/-- Modelled from the spec: the multi-layer grid the binary dialect
carries (§4.5). -/
structure BinModel where
  width : Nat
  height : Nat
  layers : List (List Cell)
deriving DecidableEq, Repr

/-- A signed 16-bit value. -/
def i16Ok (v : Int) : Prop := -32768 ≤ v ∧ v < 32768

/-- All payload values of a cell are 16-bit. -/
def cellOk : Cell → Prop
  | .scalar v => i16Ok v
  | .dir n e s w => i16Ok n ∧ i16Ok e ∧ i16Ok s ∧ i16Ok w

/-- A model the binary dialect can represent: `u32` dimensions, at
least one layer, a `u32` layer count, every layer of exactly
`width * height` cells, every cell 16-bit. -/
def binOk (m : BinModel) : Prop :=
  m.width < 2 ^ 32 ∧ m.height < 2 ^ 32 ∧
  1 ≤ m.layers.length ∧ m.layers.length < 2 ^ 32 ∧
  ∀ l ∈ m.layers, l.length = m.width * m.height ∧ ∀ c ∈ l, cellOk c

instance (v : Int) : Decidable (i16Ok v) := by
  unfold i16Ok; infer_instance

instance (c : Cell) : Decidable (cellOk c) := by
  cases c <;> (unfold cellOk; infer_instance)

instance (m : BinModel) : Decidable (binOk m) := by
  unfold binOk; infer_instance

/-- Little-endian `u32` bytes. -/
def u32Bytes (n : Nat) : List Nat :=
  [n % 256, n / 256 % 256, n / 65536 % 256, n / 16777216 % 256]

/-- Little-endian two's-complement `i16` bytes. -/
def i16Bytes (v : Int) : List Nat :=
  [(v % 65536).toNat % 256, (v % 65536).toNat / 256]

/-- Modelled from the spec: the Tagged Cell Codec encode (§4.2). -/
def encodeCell : Cell → List Nat
  | .scalar v => 0 :: i16Bytes v
  | .dir n e s w => 1 :: (i16Bytes n ++ i16Bytes e ++ i16Bytes s ++ i16Bytes w)

/-- Modelled from the spec: the binary v3 encoder (§4.5). -/
def encodeBin (m : BinModel) : List Nat :=
  3 :: (u32Bytes m.width ++ u32Bytes m.height ++ u32Bytes m.layers.length ++
    (m.layers.map (fun l => (l.map encodeCell).flatten)).flatten)

def readU32 : List Nat → Option (Nat × List Nat)
  | b0 :: b1 :: b2 :: b3 :: rest =>
    some (b0 + 256 * b1 + 65536 * b2 + 16777216 * b3, rest)
  | _ => none

def readI16 : List Nat → Option (Int × List Nat)
  | b0 :: b1 :: rest =>
    some (if b0 + 256 * b1 < 32768 then ((b0 + 256 * b1 : Nat) : Int)
          else ((b0 + 256 * b1 : Nat) : Int) - 65536, rest)
  | _ => none

/-- Modelled from the spec: the Tagged Cell Codec decode (§4.2): tag 0
reads one `i16`, tag 1 reads four, any other tag fails, as does a
truncated stream. -/
def readCell : List Nat → Option (Cell × List Nat)
  | 0 :: rest => (readI16 rest).map (fun p => (.scalar p.1, p.2))
  | 1 :: rest =>
    match readI16 rest with
    | none => none
    | some (n, r1) =>
      match readI16 r1 with
      | none => none
      | some (e, r2) =>
        match readI16 r2 with
        | none => none
        | some (s, r3) =>
          match readI16 r3 with
          | none => none
          | some (w, r4) => some (.dir n e s w, r4)
  | _ => none

/-- Read `k` consecutive cells. -/
def readCells : Nat → List Nat → Option (List Cell × List Nat)
  | 0, rest => some ([], rest)
  | k + 1, rest =>
    match readCell rest with
    | none => none
    | some (c, r1) => (readCells k r1).map (fun p => (c :: p.1, p.2))

/-- Read `k` layers of `n` cells each. -/
def readLayers : Nat → Nat → List Nat → Option (List (List Cell) × List Nat)
  | 0, _, rest => some ([], rest)
  | k + 1, n, rest =>
    match readCells n rest with
    | none => none
    | some (l, r1) => (readLayers k n r1).map (fun p => (l :: p.1, p.2))

/-- Modelled from the spec: the binary v3 decoder (§4.5), failing on a
wrong version byte, a truncated stream, an unknown tag, or trailing
bytes. -/
def decodeBin (bs : List Nat) : Option BinModel :=
  match bs with
  | 3 :: rest =>
    match readU32 rest with
    | none => none
    | some (w, r1) =>
      match readU32 r1 with
      | none => none
      | some (h, r2) =>
        match readU32 r2 with
        | none => none
        | some (lc, r3) =>
          match readLayers lc (w * h) r3 with
          | none => none
          | some (ls, r4) =>
            if r4 = [] then some { width := w, height := h, layers := ls } else none
  | _ => none

/-! ## Theorems -/

/-- C8: parsing the text v1 input `"2\n2\n1,2,3,4,"` succeeds and
yields the single-layer 2×2 grid with row-major cells `[1,2,3,4]`
(colours left at the defaults), and on that grid `get_xy(1,0) = 2` and
`get_xy(0,1) = 3`. -/
theorem c8_v1_concrete_parse :
    load "2\n2\n1,2,3,4,".data = .ok grid22 ∧
    grid22.getXy 1 0 = some 2 ∧ grid22.getXy 0 1 = some 3 := by
  decide

/-- C1: the v2 cell-count check reports the wrong direction — the
source tests `map_arr.len() < w * h` for `"many"` (`lib.rs:196`), so a
`3,2;` document with five integers fails with `Too many numbers in
list` and one with seven integers fails with `Too few numbers in list`,
the opposite of what the claim (and the v1 loader, `lib.rs:90`)
says. -/
theorem c1_v2_count_direction_swapped :
    load "[v2]\n3,2;\n[\n1,2,3,4,5\n]".data =
      .err "IMF::LoadV2::Map: Too many numbers in list" ∧
    load "[v2]\n3,2;\n[\n1,2,3,4,5,6,7\n]".data =
      .err "IMF::LoadV2::Map: Too few numbers in list" := by
  decide

/-- C2: on a 2×2 grid, the coordinate `x = 2` is out of range but the
source's `x > self.width` test (`lib.rs:262`) accepts it: `xy2i 2 0`
returns index 2, `get_xy 2 0` silently reads the first cell of the next
row, `set_xy 2 0` silently overwrites it, and `set_xy 2 1` panics
(`get_mut(4).unwrap()` on a 4-cell map) instead of returning the
recoverable error the claim requires. -/
theorem c2_off_by_one_access :
    grid22.xy2i 2 0 = some 2 ∧
    grid22.getXy 2 0 = some 3 ∧
    grid22.setXy 2 0 9 =
      .ok { version := 1, colors := defaultColors, width := 2, height := 2,
            map := [1, 2, 9, 4] } ∧
    grid22.setXy 2 1 9 = .panic := by
  decide

/-- C3: serialize–parse–serialize is not the identity on serialized
output.  `grayModel` is a well-formed v2 model (map length
`width*height`), but its legend channel 127 is written as `7f`, read
back through `proc_cols`'s saturating `* 255` rescale (`lib.rs:177`) as
255, and re-written as `ff`: the second serialization differs from the
first. -/
theorem c3_roundtrip_changes_legend :
    write grayModel = .ok "[v2]\n1,1;\n0(7f0000)\n[\n0,\n]\n".data ∧
    load "[v2]\n1,1;\n0(7f0000)\n[\n0,\n]\n".data = .ok grayReparsed ∧
    write grayReparsed = .ok "[v2]\n1,1;\n0(ff0000)\n[\n0,\n]\n".data ∧
    "[v2]\n1,1;\n0(ff0000)\n[\n0,\n]\n".data ≠ "[v2]\n1,1;\n0(7f0000)\n[\n0,\n]\n".data := by
  decide

/-- C7: for any model whose `version` is neither 1 nor 2, `write` hits
the `_ => {}` arm (`lib.rs:331`): it returns `Ok` and writes nothing. -/
theorem c7_unsupported_version_silent_noop (m : IMF)
    (h1 : m.version ≠ 1) (h2 : m.version ≠ 2) : write m = .ok [] := by
  unfold write
  split
  · simp_all
  · simp_all
  · rfl

/-- Witness for C7 at a concrete version-3 model. -/
theorem c7_unsupported_version_silent_noop_witness :
    write { version := 3, colors := defaultColors, width := 2, height := 2,
            map := [1, 2, 3, 4] } = .ok [] :=
  c7_unsupported_version_silent_noop _ (by decide) (by decide)

/-- C4: on any grid with `width ≥ 1`, `height ≥ 1` and
`map.length = width * height`, `xy2i` and `i2xy` are mutual inverses
over the valid range: `i2xy (xy2i x y) = some (x, y)` for `x < width`,
`y < height`, and `xy2i` applied to `i2xy i` returns `some i` for
`i < width * height`. -/
theorem c4_xy2i_i2xy_inverses (g : IMF) (hw : 1 ≤ g.width) (_hpos : 1 ≤ g.height)
    (hm : g.map.length = g.width * g.height) :
    (∀ x y, x < g.width → y < g.height → (g.xy2i x y).bind g.i2xy = some (x, y)) ∧
    (∀ i, i < g.width * g.height →
      (g.i2xy i).bind (fun p => g.xy2i p.1 p.2) = some i) := by
  constructor
  · intro x y hx hy
    have hcond : ¬(x > g.width ∨ y > g.height) := by omega
    have hlt : y * g.width + x < g.map.length := by
      rw [hm, Nat.mul_comm g.width g.height]
      have h1 : (y + 1) * g.width ≤ g.height * g.width :=
        Nat.mul_le_mul_right _ (by omega)
      have h2 : y * g.width + x < (y + 1) * g.width := by
        rw [Nat.succ_mul]; omega
      omega
    have hmod : (y * g.width + x) % g.width = x := by
      rw [Nat.add_comm, Nat.add_mul_mod_self_right, Nat.mod_eq_of_lt hx]
    have hdiv : (y * g.width + x) / g.width = y := by
      rw [Nat.add_comm, Nat.add_mul_div_right _ _ (by omega : 0 < g.width),
        Nat.div_eq_of_lt hx, Nat.zero_add]
    unfold IMF.xy2i
    rw [if_neg hcond]
    show g.i2xy (y * g.width + x) = some (x, y)
    unfold IMF.i2xy
    rw [if_pos hlt, hmod, hdiv]
  · intro i hi
    have him : i < g.map.length := by rw [hm]; exact hi
    have hmodlt : i % g.width < g.width := Nat.mod_lt _ (by omega)
    have hdivlt : i / g.width < g.height :=
      (Nat.div_lt_iff_lt_mul (by omega)).mpr (by rw [Nat.mul_comm]; exact hi)
    have hcond : ¬(i % g.width > g.width ∨ i / g.width > g.height) := by omega
    unfold IMF.i2xy
    rw [if_pos him]
    show g.xy2i (i % g.width) (i / g.width) = some i
    unfold IMF.xy2i
    rw [if_neg hcond, Nat.mul_comm (i / g.width) g.width, Nat.div_add_mod]

/-- Witness for C4 on the concrete 2×3 grid. -/
theorem c4_xy2i_i2xy_inverses_witness :
    (grid23.xy2i 1 2).bind grid23.i2xy = some (1, 2) ∧
    (grid23.i2xy 5).bind (fun p => grid23.xy2i p.1 p.2) = some 5 :=
  ⟨(c4_xy2i_i2xy_inverses grid23 (by decide) (by decide) (by decide)).1 1 2
      (by decide) (by decide),
   (c4_xy2i_i2xy_inverses grid23 (by decide) (by decide) (by decide)).2 5 (by decide)⟩

/-- The digits captured by a successful `versionAt` attempt are a
non-empty run of decimal digits. -/
theorem versionAt_digits (l ds : List Char) (h : versionAt l = some ds) :
    ds ≠ [] ∧ ds.all Char.isDigit := by
  cases l with
  | nil => simp [versionAt] at h
  | cons c rest =>
    simp only [versionAt] at h
    split at h
    · split at h
      · cases h
        rename_i hcond
        refine ⟨hcond.1, ?_⟩
        rw [List.all_eq_true]
        intro x hx
        exact List.mem_takeWhile_imp hx
      · cases h
    · cases h

/-- The digits captured by the version scanner are a non-empty run of
decimal digits. -/
theorem scanVersion_digits (l ds : List Char) (h : scanVersion l = some ds) :
    ds ≠ [] ∧ ds.all Char.isDigit := by
  induction l with
  | nil => simp [scanVersion] at h
  | cons c rest ih =>
    simp only [scanVersion] at h
    split at h
    · split at h
      · cases h
        rename_i hv
        exact versionAt_digits rest _ hv
      · exact ih h
    · exact ih h

/-- C5 (amended): version dispatch as the code actually performs it.
When the text contains no `[vN]` marker, the input is parsed as v1.
Whenever it does contain a marker (first match, digits `d`): `N = 1` or
`N = 2` selects that dialect; any other `N` that fits in `u8` is the
fatal `Incompatible IMF version!` error; but an `N` of 256 or more
fails the `u8` conversion inside `proc_version`, is treated as no
marker at all, and the input falls back to the v1 dialect. -/
theorem c5_version_dispatch (s : List Char) :
    (scanVersion s = none → load s = dispatchV1 s) ∧
    ∀ d, scanVersion s = some d →
      (natOfDigits d = 1 → load s = dispatchV1 s) ∧
      (natOfDigits d = 2 → load s = dispatchV2 s) ∧
      (natOfDigits d < 256 → natOfDigits d ≠ 1 → natOfDigits d ≠ 2 →
        load s = .err "Incompatible IMF version!") ∧
      (256 ≤ natOfDigits d → load s = dispatchV1 s) := by
  constructor
  · intro hnone
    have hpv : procVersion s = none := by
      simp only [procVersion, hnone]
    unfold load
    rw [hpv]
    rfl
  · intro d hscan
    have hd := scanVersion_digits s d hscan
    have hpv : procVersion s = if natOfDigits d < 256 then some (natOfDigits d) else none := by
      simp only [procVersion, hscan, parseNatCore]
      rw [if_pos hd]
    refine ⟨?_, ?_, ?_, ?_⟩
    · intro h1
      unfold load
      rw [hpv, if_pos (by omega), h1]
      rfl
    · intro h2
      unfold load
      rw [hpv, if_pos (by omega), h2]
      rfl
    · intro hlt h1 h2
      unfold load
      rw [hpv, if_pos hlt]
      generalize hg : natOfDigits d = k at h1 h2
      rcases k with _ | _ | _ | n
      · rfl
      · exact absurd rfl h1
      · exact absurd rfl h2
      · rfl
    · intro hge
      unfold load
      rw [hpv, if_neg (by omega)]
      rfl

/-- C5, counterexample to the claim as stated: the input below carries
the marker `[v300]`; 300 is not a supported version, yet parsing does
not fail with the fatal `Incompatible IMF version!` error — the `u8`
parse of `300` fails, the marker is dropped, and the v1 loader runs
(and happens to reject the first line as a width). -/
theorem c5_overflow_marker_falls_back :
    scanVersion "[v300]\n2\n2\n1,2,3,4,".data = some ['3', '0', '0'] ∧
    load "[v300]\n2\n2\n1,2,3,4,".data =
      .err "IMF::LoadV1::Dimensions: Width not a number" ∧
    load "[v300]\n2\n2\n1,2,3,4,".data ≠ .err "Incompatible IMF version!" := by
  decide

/-- Witness for the amended C5: the overflowing marker `[v300]` falls
back to the v1 dialect, and a markerless input defaults to it. -/
theorem c5_version_dispatch_witness :
    load "[v300]\n2\n2\n1,2,3,4,".data = dispatchV1 "[v300]\n2\n2\n1,2,3,4,".data ∧
    load "2\n2\n1,2,3,4,".data = dispatchV1 "2\n2\n1,2,3,4,".data :=
  ⟨((c5_version_dispatch "[v300]\n2\n2\n1,2,3,4,".data).2 ['3', '0', '0']
      (by decide)).2.2.2 (by decide),
   (c5_version_dispatch "2\n2\n1,2,3,4,".data).1 (by decide)⟩

/-- Every colour channel stored by the v2 legend parser is saturated:
the `satur` rescale maps 0 to 0 and every other value to 255. -/
theorem satur_cases (v : Nat) : satur v = 0 ∨ satur v = 255 := by
  cases v with
  | zero => left; rfl
  | succ n => right; unfold satur; omega

/-- An entry of `btreeInsert k v l` is the inserted pair or an entry of
`l`. -/
theorem mem_btreeInsert (k : Int) (v : Nat × Nat × Nat)
    (l : List (Int × Nat × Nat × Nat)) (e : Int × Nat × Nat × Nat)
    (h : e ∈ btreeInsert k v l) : e = (k, v) ∨ e ∈ l := by
  induction l with
  | nil => simpa [btreeInsert] using h
  | cons p rest ih =>
    unfold btreeInsert at h
    split at h
    · simpa using h
    · split at h
      · rcases List.mem_cons.mp h with h1 | h1
        · exact .inl h1
        · exact .inr (List.mem_cons_of_mem _ h1)
      · rcases List.mem_cons.mp h with h1 | h1
        · exact .inr (h1 ▸ List.mem_cons_self _ _)
        · rcases ih h1 with h2 | h2
          · exact .inl h2
          · exact .inr (List.mem_cons_of_mem _ h2)

/-- Every entry the legend loop produces has saturated channels
(the loop only ever inserts `satur`-rescaled values). -/
theorem colsLoop_chanSat (items : List (List Char))
    (acc res : List (Int × Nat × Nat × Nat)) (h : colsLoop items acc = .ok res)
    (hacc : ∀ e ∈ acc, chanSat e) : ∀ e ∈ res, chanSat e := by
  induction items generalizing acc with
  | nil =>
    cases h
    exact hacc
  | cons item rest ih =>
    unfold colsLoop at h
    split at h
    · cases h
    · split at h
      · cases h
      · split at h
        · refine ih _ h ?_
          intro e he
          rename_i key a b c d ef f heq
          rcases mem_btreeInsert _ _ _ _ he with h1 | h1
          · subst h1
            exact ⟨satur_cases _, satur_cases _, satur_cases _⟩
          · exact hacc e h1
        · cases h

/-- C9: any legend a v2 document can produce stores, in every entry,
channels that are each 0 or 255: `proc_cols` parses each channel on the
0–255 scale and then multiplies by 255 with a saturating `as u8` cast
(`lib.rs:177`), so no in-between value survives. -/
theorem c9_legend_channels_zero_or_255 (s : List Char)
    (cmap : List (Int × Nat × Nat × Nat)) (hp : procCols s = .ok (some cmap)) :
    ∀ e ∈ cmap, chanSat e := by
  unfold procCols at hp
  split at hp
  · cases hp
  · split at hp
    · cases hp
    · rename_i heq
      cases hp
      exact colsLoop_chanSat _ _ _ heq (by intro e he; cases he)

/-- Witness for C9: the concrete legend `5(7f00ff)` parses to the entry
`(5, 255, 0, 255)`, whose channels are all 0 or 255. -/
theorem c9_legend_channels_zero_or_255_witness : chanSat ((5 : Int), 255, 0, 255) :=
  c9_legend_channels_zero_or_255 "5(7f00ff)".data [((5 : Int), 255, 0, 255)]
    (by rfl) ((5 : Int), 255, 0, 255) (by decide)

/-- Characters consumed by the greedy `(\d+,?)+` run are digits or
commas. -/
theorem mapRunFrom_chars (fuel : Nat) :
    ∀ l m rest, mapRunFrom fuel l = some (m, rest) →
      ∀ c ∈ m, c.isDigit = true ∨ c = ',' := by
  induction fuel with
  | zero => intro l m rest h; cases h
  | succ fuel ih =>
    intro l m rest h c hc
    simp only [mapRunFrom] at h
    split at h
    · cases h
    · split at h
      · rename_i r2 heq
        cases hrec : mapRunFrom fuel r2 with
        | some p =>
          obtain ⟨m2, rest2⟩ := p
          rw [hrec] at h
          cases h
          rcases List.mem_append.mp hc with h1 | h1
          · exact .inl (List.mem_takeWhile_imp h1)
          · rcases List.mem_cons.mp h1 with h2 | h2
            · exact .inr h2
            · exact ih _ _ _ hrec c h2
        | none =>
          rw [hrec] at h
          cases h
          rcases List.mem_append.mp hc with h1 | h1
          · exact .inl (List.mem_takeWhile_imp h1)
          · simp only [List.mem_singleton] at h1
            exact .inr h1
      · cases h
        exact .inl (List.mem_takeWhile_imp hc)

/-- Characters of the matched `(?<=\[)(\d+,?)+(?=\])` run are digits or
commas. -/
theorem scanMapGo_chars :
    ∀ l prev m, scanMapGo prev l = some m → ∀ c ∈ m, c.isDigit = true ∨ c = ',' := by
  intro l
  induction l with
  | nil => intro prev m h; cases h
  | cons a rest ih =>
    intro prev m h c hc
    simp only [scanMapGo] at h
    split at h
    · split at h
      · rename_i m2 r2 hrun
        split at h
        · cases h
          exact mapRunFrom_chars _ _ _ _ hrun c hc
        · exact ih _ _ h c hc
      · exact ih _ _ h c hc
    · exact ih _ _ h c hc

/-- A character of a piece of `splitOnChar sep l` is a character of
`l`. -/
theorem splitOnChar_mem (sep : Char) :
    ∀ (l tok : List Char), tok ∈ splitOnChar sep l → ∀ c ∈ tok, c ∈ l := by
  intro l
  induction l with
  | nil =>
    intro tok htok c hc
    simp only [splitOnChar, List.mem_singleton] at htok
    subst htok
    cases hc
  | cons a rest ih =>
    intro tok htok c hc
    cases hsp : splitOnChar sep rest with
    | nil =>
      simp only [splitOnChar, hsp] at htok
      split at htok
      · rcases List.mem_cons.mp htok with h1 | h1
        · subst h1; cases hc
        · simp only [List.mem_singleton] at h1
          subst h1; cases hc
      · simp only [List.mem_singleton] at htok
        subst htok
        simp only [List.mem_singleton] at hc
        subst hc
        exact List.mem_cons_self _ _
    | cons t ts =>
      simp only [splitOnChar, hsp] at htok
      split at htok
      · rcases List.mem_cons.mp htok with h1 | h1
        · subst h1; cases hc
        · have : c ∈ rest := ih tok (by rw [hsp]; exact h1) c hc
          exact List.mem_cons_of_mem _ this
      · rcases List.mem_cons.mp htok with h1 | h1
        · subst h1
          rcases List.mem_cons.mp hc with h2 | h2
          · subst h2; exact List.mem_cons_self _ _
          · have : c ∈ rest := ih t (by rw [hsp]; exact List.mem_cons_self _ _) c h2
            exact List.mem_cons_of_mem _ this
        · have : c ∈ rest := ih tok (by rw [hsp]; exact List.mem_cons_of_mem _ h1) c hc
          exact List.mem_cons_of_mem _ this

/-- A character of `trimCh l` is a character of `l`. -/
theorem trimCh_mem (l : List Char) (c : Char) (h : c ∈ trimCh l) : c ∈ l := by
  unfold trimCh at h
  rw [List.mem_reverse] at h
  have h2 := (List.dropWhile_suffix Char.isWhitespace).sublist.subset h
  rw [List.mem_reverse] at h2
  exact (List.dropWhile_suffix Char.isWhitespace).sublist.subset h2

/-- A token without a minus sign parses (when it parses) to a
non-negative value. -/
theorem parseI32_nonneg (t : List Char) (v : Int) (h : parseI32 t = some v)
    (hm : '-' ∉ t) : 0 ≤ v := by
  simp only [parseI32] at h
  split at h
  · exact absurd (List.mem_cons_self _ _) hm
  · split at h
    · split at h
      · cases h
        exact Int.natCast_nonneg _
      · cases h
    · cases h
  · split at h
    · split at h
      · cases h
        exact Int.natCast_nonneg _
      · cases h
    · cases h

/-- Values produced by the `str2vec` loop over minus-free tokens are
non-negative. -/
theorem str2vecLoop_nonneg :
    ∀ (items : List (List Char)) m, str2vecLoop items = .ok m →
      (∀ tok ∈ items, '-' ∉ tok) → ∀ v ∈ m, 0 ≤ v := by
  intro items
  induction items with
  | nil =>
    intro m h htoks v hv
    cases h
    cases hv
  | cons tok rest ih =>
    intro m h htoks v hv
    simp only [str2vecLoop] at h
    split at h
    · exact ih m h (fun t ht => htoks t (List.mem_cons_of_mem _ ht)) v hv
    · split at h
      · rename_i n hn
        cases hr : str2vecLoop rest with
        | error e => rw [hr] at h; cases h
        | ok l2 =>
          rw [hr] at h
          simp only [Except.map] at h
          cases h
          rcases List.mem_cons.mp hv with h1 | h1
          · subst h1
            refine parseI32_nonneg _ _ hn ?_
            intro hmem
            exact htoks tok (List.mem_cons_self _ _) (trimCh_mem _ _ hmem)
          · exact ih l2 hr (fun t ht => htoks t (List.mem_cons_of_mem _ ht)) v h1
      · cases h

/-- C10: every cell value a successful v2 map extraction produces is
non-negative — the `(?<=\[)(\d+,?)+(?=\])` pattern admits only unsigned
digits and commas, so a minus sign never reaches the `i32` parser. -/
theorem c10_v2_map_values_nonneg (s : List Char) (w h : Nat) (m : List Int)
    (hp : procMap s w h = .ok m) : ∀ v ∈ m, 0 ≤ v := by
  unfold procMap at hp
  split at hp
  · cases hp
  · rename_i run hrun
    split at hp
    · cases hp
    · rename_i arr harr
      split at hp
      · cases hp
      · cases hp
        have hchars := scanMapGo_chars s none run hrun
        unfold str2vec at harr
        refine str2vecLoop_nonneg _ _ harr ?_
        intro tok htok hmem
        rcases hchars '-' (splitOnChar_mem ',' run tok htok '-' hmem) with h1 | h1
        · simp [Char.isDigit] at h1
        · cases h1

/-- Witness for C10 on the concrete v2 map `[1,2]`. -/
theorem c10_v2_map_values_nonneg_witness : (0 : Int) ≤ 2 :=
  c10_v2_map_values_nonneg "[1,2]".data 2 1 [1, 2] (by rfl) 2 (by decide)


/-- Decoding the little-endian `u32` bytes of `n < 2^32` restores `n`. -/
theorem readU32_u32Bytes (n : Nat) (hn : n < 2 ^ 32) (rest : List Nat) :
    readU32 (u32Bytes n ++ rest) = some (n, rest) := by
  simp only [u32Bytes, List.cons_append, List.nil_append, readU32]
  have : n % 256 + 256 * (n / 256 % 256) + 65536 * (n / 65536 % 256) +
      16777216 * (n / 16777216 % 256) = n := by omega
  rw [this]

/-- Decoding the two's-complement bytes of a 16-bit value restores
it. -/
theorem readI16_i16Bytes (v : Int) (hv : i16Ok v) (rest : List Nat) :
    readI16 (i16Bytes v ++ rest) = some (v, rest) := by
  obtain ⟨h1, h2⟩ := hv
  simp only [i16Bytes, List.cons_append, List.nil_append, readI16]
  have : ((v % 65536).toNat % 256 + 256 * ((v % 65536).toNat / 256)) =
      (v % 65536).toNat := by omega
  rw [this]
  split
  · rename_i hlt
    have : ((v % 65536).toNat : Int) = v := by omega
    rw [this]
  · rename_i hge
    have : ((v % 65536).toNat : Int) - 65536 = v := by omega
    rw [this]

/-- Decoding an encoded 16-bit cell restores it. -/
theorem readCell_encodeCell (c : Cell) (hc : cellOk c) (rest : List Nat) :
    readCell (encodeCell c ++ rest) = some (c, rest) := by
  cases c with
  | scalar v =>
    simp only [encodeCell, List.cons_append, readCell,
      readI16_i16Bytes v hc rest, Option.map]
  | dir n e s w =>
    obtain ⟨h1, h2, h3, h4⟩ := hc
    simp only [encodeCell, List.cons_append, List.append_assoc, readCell,
      readI16_i16Bytes n h1 _, readI16_i16Bytes e h2 _,
      readI16_i16Bytes s h3 _, readI16_i16Bytes w h4 _]

/-- Decoding an encoded layer of 16-bit cells restores it. -/
theorem readCells_encode (l : List Cell) (hl : ∀ c ∈ l, cellOk c)
    (rest : List Nat) :
    readCells l.length ((l.map encodeCell).flatten ++ rest) = some (l, rest) := by
  induction l with
  | nil => simp [readCells]
  | cons c cs ih =>
    simp only [List.map_cons, List.flatten_cons, List.length_cons,
      List.append_assoc, readCells,
      readCell_encodeCell c (hl c (List.mem_cons_self _ _)) _,
      ih (fun x hx => hl x (List.mem_cons_of_mem _ hx)), Option.map]

/-- Decoding the encoded layers restores them. -/
theorem readLayers_encode (ls : List (List Cell)) (n : Nat)
    (h : ∀ l ∈ ls, l.length = n ∧ ∀ c ∈ l, cellOk c) (rest : List Nat) :
    readLayers ls.length n
      ((ls.map (fun l => (l.map encodeCell).flatten)).flatten ++ rest) =
      some (ls, rest) := by
  induction ls with
  | nil => simp [readLayers]
  | cons l ls2 ih =>
    have hlen := (h l (List.mem_cons_self _ _)).1
    have hok := (h l (List.mem_cons_self _ _)).2
    simp only [List.map_cons, List.flatten_cons, List.length_cons,
      List.append_assoc, readLayers]
    have hc : readCells n ((l.map encodeCell).flatten ++
        ((ls2.map (fun l2 => (l2.map encodeCell).flatten)).flatten ++ rest)) =
        some (l, (ls2.map (fun l2 => (l2.map encodeCell).flatten)).flatten ++ rest) := by
      rw [← hlen]
      exact readCells_encode l hok _
    rw [hc]
    simp only [ih (fun x hx => h x (List.mem_cons_of_mem _ hx)), Option.map]

/-- C6: for every representable model (≥ 1 layers of 16-bit tagged
cells, `u32` dimensions and layer count, every layer of exactly
`width*height` cells), decoding the binary v3 encoding restores the
model exactly, multi-layer and mixed-variant cells included. -/
theorem c6_binary_v3_roundtrip (m : BinModel) (h : binOk m) :
    decodeBin (encodeBin m) = some m := by
  obtain ⟨hw, hh, hl1, hl2, hls⟩ := h
  simp only [encodeBin, decodeBin, List.append_assoc,
    readU32_u32Bytes m.width hw _, readU32_u32Bytes m.height hh _,
    readU32_u32Bytes m.layers.length hl2 _]
  rw [show (m.layers.map (fun l => (l.map encodeCell).flatten)).flatten =
      (m.layers.map (fun l => (l.map encodeCell).flatten)).flatten ++ []
    from (List.append_nil _).symm]
  rw [readLayers_encode m.layers (m.width * m.height) hls []]
  rfl

/-- Witness for C6: a 2×1 model with two layers and mixed cell
variants round-trips. -/
theorem c6_binary_v3_roundtrip_witness :
    decodeBin (encodeBin ⟨2, 1, [[.scalar 7, .dir 1 2 3 (-4)], [.scalar (-1), .scalar 0]]⟩) =
      some ⟨2, 1, [[.scalar 7, .dir 1 2 3 (-4)], [.scalar (-1), .scalar 0]]⟩ :=
  c6_binary_v3_roundtrip
    ⟨2, 1, [[.scalar 7, .dir 1 2 3 (-4)], [.scalar (-1), .scalar 0]]⟩ (by decide)

end IMFSpec
